import Mathlib

/-!
Shallow embedding of the `flags_usage` Deno module (`src/mod.ts`), which augments
an argument parser with generated `--help` usage text.

The repository contains two revisions of the module separated by a document
separator in `src/mod.ts`:
* the earlier revision (`mod.ts` lines 30-127): a monolithic `formatUsage`
  (embedded here with the `V1` suffix / `formatUsageOld`), together with
  `processArgs`/`parseArgs`;
* the later revision (`mod.ts` lines 161-341): `convertToFlagInfos` plus a
  `FlagInfo`-based `formatUsage`, together with `processFlags`/`parseFlags`.

JavaScript objects are modelled as insertion-ordered association lists
(`StrMap`), JavaScript runtime values occurring as flag defaults as `JSVal`,
and truthiness tests on possibly-absent strings as `jsTruthy`.  The external
tokenizer (`std/flags` `parse`) is not part of the repository sources; the
pieces of its behaviour needed by `processFlags` are modelled from the spec
and are marked as such in their doc comments.
-/

/-- JavaScript runtime value, as far as `typeof` and default-value formatting
can observe it.  Numbers are modelled as integers (no claim involves
non-integral defaults); every non-primitive value is collapsed to its
`typeof` name via `other`. -/
inductive JSVal where
  | str (s : String)
  | num (n : Int)
  | bool (b : Bool)
  | undef
  | other (typeName : String)
deriving DecidableEq, Repr

/-- The JavaScript `typeof` operator on a `JSVal`. -/
def JSVal.typeof : JSVal → String
  | .str _ => "string"
  | .num _ => "number"
  | .bool _ => "boolean"
  | .undef => "undefined"
  | .other t => t

/-- A JavaScript object with string keys: an insertion-ordered association
list.  Objects built by the source always have distinct keys. -/
abbrev StrMap (α : Type) := List (String × α)

/-- Property read `m[k]`: the value at the first matching key, or `none`
(JavaScript `undefined`) when the key is absent. -/
def getVal {α : Type} : StrMap α → String → Option α
  | [], _ => none
  | kv :: m, k => if kv.1 = k then some kv.2 else getVal m k

/-- Property write `m[k] = v`: updates the value in place if the key exists
(JavaScript keeps the original insertion position), otherwise appends the new
key at the end. -/
def setKey {α : Type} : StrMap α → String → α → StrMap α
  | [], k, v => [(k, v)]
  | kv :: m, k, v => if kv.1 = k then (kv.1, v) :: m else kv :: setKey m k v

/-- JavaScript truthiness of a possibly-absent string (`undefined` and the
empty string are falsy). -/
def jsTruthy : Option String → Bool
  | some s => s != ""
  | none => false

/-- Keeps a possibly-absent string only when it is truthy; used to embed the
`if (str) { obj[flag] = str; }` recording pattern of the later revision. -/
def truthyOpt : Option String → Option String
  | some s => if s != "" then some s else none
  | none => none

/-- The value of an `alias` map entry: `string | string[]`. -/
inductive AliasVal where
  | one (s : String)
  | many (l : List String)
deriving DecidableEq, Repr

/-- Normalization `Array.isArray(value) ? value : [value]` applied to an alias
map entry. -/
def AliasVal.toList : AliasVal → List String
  | .one s => [s]
  | .many l => l

/-- The `boolean` / `string` options of `ArgParsingOptions`:
`boolean | string | string[]` (for `string` the `boolVal` shape does not occur
in typed callers but is harmless). -/
inductive FlagListOpt where
  | strVal (s : String)
  | listVal (l : List String)
  | boolVal (b : Bool)
  | notGiven
deriving DecidableEq, Repr

/-- The flag-name list extracted by
`Array.isArray(o.x) ? o.x : ((typeof(o.x) === "string") ? [o.x] : [])`. -/
def FlagListOpt.toFlagList : FlagListOpt → List String
  | .listVal l => l
  | .strVal s => [s]
  | _ => []

/-- The `unknown` callback type of `ArgParsingOptions`:
`(arg: string, key?: string, value?: unknown) => unknown`. -/
def UnknownCb : Type := String → Option String → JSVal → JSVal

/-- The `ArgProcessingOptions` configuration object (`mod.ts` lines 161-164):
`ArgParsingOptions` plus the `description` and `argument` maps.  The `alias`
option is named `aliasOpt` here because `alias` is a reserved word in Lean.
The `preamble` field carries the preamble option the spec describes; neither
`mod.ts` revision under `src/` reads it (a JavaScript call simply ignores
extra properties), and it is consumed only by the spec-modelled
`formatUsageWithPreamble` below. -/
structure ArgProcessingOptions where
  description : StrMap String := []
  argument : StrMap String := []
  aliasOpt : StrMap AliasVal := []
  boolean : FlagListOpt := .notGiven
  string : FlagListOpt := .notGiven
  default : StrMap JSVal := []
  unknown : Option UnknownCb := none
  preamble : Option String := none

/-- The empty configuration object `{}`. -/
def noOptions : ArgProcessingOptions := {}

/-- Function `addHelpFlagIfNeeded` (`mod.ts` lines 175-195, identical in the
earlier revision at lines 8-28): if `options?.description?.help` is truthy the
options object itself is returned; otherwise a copy with `help: ["h", "?"]`
merged into `alias` and `help: "Display usage information"` merged into
`description`. -/
def addHelpFlagIfNeeded (options : ArgProcessingOptions) : ArgProcessingOptions :=
  if jsTruthy (getVal options.description "help") then options
  else
    { options with
      aliasOpt := setKey options.aliasOpt "help" (.many ["h", "?"])
      description := setKey options.description "help" "Display usage information" }

/-- Normalization of the alias map to arrays (`mod.ts` lines 199-205). -/
def flagToAliasesOf (o : ArgProcessingOptions) : StrMap (List String) :=
  o.aliasOpt.foldl (fun m kv => setKey m kv.1 kv.2.toList) []

/-- The boolean flag-name list (`mod.ts` line 212). -/
def booleanFlagsOf (o : ArgProcessingOptions) : List String :=
  o.boolean.toFlagList

/-- The string flag-name list (`mod.ts` line 213). -/
def stringFlagsOf (o : ArgProcessingOptions) : List String :=
  o.string.toFlagList

/-- Insertion into the flag `Set` (a JavaScript `Set` keeps first-insertion
order and ignores re-insertions). -/
def addFlag (fs : List String) (f : String) : List String :=
  if f ∈ fs then fs else fs ++ [f]

/-- Flag enumeration (`mod.ts` lines 216-220): description keys, boolean
flags, string flags, argument keys, then default keys. -/
def unionFlags (o : ArgProcessingOptions) : List String :=
  let s1 := (o.description.map Prod.fst).foldl addFlag []
  let s2 := (booleanFlagsOf o).foldl addFlag s1
  let s3 := (stringFlagsOf o).foldl addFlag s2
  let s4 := (o.argument.map Prod.fst).foldl addFlag s3
  (o.default.map Prod.fst).foldl addFlag s4

/-- Alias removal (`mod.ts` lines 227-232): every name registered as an alias
of some flag is deleted from the flag set. -/
def removeAliases (fs : List String) (fta : StrMap (List String)) : List String :=
  fta.foldl (fun fs kv => kv.2.foldl (fun fs a => fs.filter (fun f => f != a)) fs) fs

/-- The ordered canonical flag set (`mod.ts` lines 208-232): union of the five
sources, `help` deleted and re-added so it comes last, then aliases removed. -/
def flagSetOf (o : ArgProcessingOptions) : List String :=
  removeAliases ((unionFlags o).filter (fun f => f != "help") ++ ["help"]) (flagToAliasesOf o)

/-- Flag argument types (`mod.ts` lines 235-238): `typeof` of each default,
then `"boolean"` for the boolean list, then `"string"` for the string list —
each stage overwriting the previous one. -/
def flagArgumentTypesOf (o : ArgProcessingOptions) : StrMap String :=
  let m := o.default.foldl (fun m kv => setKey m kv.1 kv.2.typeof) []
  let m := (booleanFlagsOf o).foldl (fun m f => setKey m f "boolean") m
  (stringFlagsOf o).foldl (fun m f => setKey m f "string") m

/-- The `switch` on the inferred type (`mod.ts` lines 245-250): `"str"` for
strings, `"num"` for numbers, no placeholder for booleans, `"arg"` otherwise. -/
def argNameOfType : String → Option String
  | "string" => some "str"
  | "number" => some "num"
  | "boolean" => none
  | _ => some "arg"

/-- The raw placeholder computed per flag (`mod.ts` lines 243-251): the
explicit `argument` map entry if present, otherwise derived from the inferred
type when that is truthy. -/
def rawArgumentName (o : ArgProcessingOptions) (flag : String) : Option String :=
  match getVal o.argument flag with
  | some s => some s
  | none =>
    match getVal (flagArgumentTypesOf o) flag with
    | some t => if t != "" then argNameOfType t else none
    | none => none

/-- Conditional property write: `if (v !== undefined) { m[key] = v; }` —
records a possibly-absent value under the given key when it is present. -/
def updEntry {α : Type} (key : String) (v? : Option α) (m : StrMap α) : StrMap α :=
  match v? with
  | some v => setKey m key v
  | none => m

/-- Placeholder map of the later revision (`mod.ts` lines 241-256): the raw
placeholder is recorded only when truthy (`if (str)`). -/
def flagArgumentNamesOf (o : ArgProcessingOptions) : StrMap String :=
  (flagSetOf o).foldl (fun m flag => updEntry flag (truthyOpt (rawArgumentName o flag)) m) []

/-- Placeholder map of the earlier revision (`mod.ts` lines 76-91): the raw
placeholder is recorded whenever defined (`if (str !== undefined)`), including
the empty string. -/
def flagArgumentStringsV1 (o : ArgProcessingOptions) : StrMap String :=
  (flagSetOf o).foldl (fun m flag => updEntry flag (rawArgumentName o flag) m) []

/-- The `FlagInfo` record of the later revision (`mod.ts` lines 166-173). -/
structure FlagInfo where
  flag : String
  aliases : Option (List String) := none
  type : Option String := none
  description : Option String := none
  argumentName : Option String := none
  default : Option JSVal := none
deriving DecidableEq, Repr

/-- The record built for one canonical flag (`mod.ts` lines 258-265). -/
def mkFlagInfo (o : ArgProcessingOptions) (flag : String) : FlagInfo :=
  { flag := flag
    aliases := getVal (flagToAliasesOf o) flag
    type := getVal (flagArgumentTypesOf o) flag
    description := getVal o.description flag
    argumentName := getVal (flagArgumentNamesOf o) flag
    default := getVal o.default flag }

/-- Function `convertToFlagInfos` (`mod.ts` lines 197-266). -/
def convertToFlagInfos (o : ArgProcessingOptions) : List FlagInfo :=
  (flagSetOf o).map (mkFlagInfo o)

/-- Default formatting of the earlier revision (`mod.ts` lines 95-105): the
`switch` has no `undefined` case, so an `undefined` default falls into the
`default:` branch and is formatted as its `typeof` name `"undefined"`. -/
def formatDefaultV1 : JSVal → String
  | .str s => "\"" ++ s ++ "\""
  | .num n => toString n
  | .bool b => toString b
  | v => v.typeof

/-- Default formatting of the later revision (`mod.ts` lines 276-284): same
`switch` but with an explicit `case "undefined": break;`, so absent and
`undefined` defaults produce no string. -/
def formatDefaultV2 : Option JSVal → Option String
  | some (.str s) => some ("\"" ++ s ++ "\"")
  | some (.num n) => some (toString n)
  | some (.bool b) => some (toString b)
  | some .undef => none
  | some (.other t) => some t
  | none => none

/-- Formatted-default map of the earlier revision (`mod.ts` lines 94-105),
keyed over the default map itself. -/
def flagDefaultStringsV1 (o : ArgProcessingOptions) : StrMap String :=
  o.default.foldl (fun m kv => setKey m kv.1 (formatDefaultV1 kv.2)) []

/-- Formatted-default map of the later revision (`mod.ts` lines 274-288),
keyed over the flag infos and recorded only when truthy (`if (str)`). -/
def flagDefaultStringsV2 (infos : List FlagInfo) : StrMap String :=
  infos.foldl (fun m info => updEntry info.flag (truthyOpt (formatDefaultV2 info.default)) m) []

/-- Stable insertion of a string into a length-sorted list, after all entries
of smaller or equal length. -/
def insertByLen : List String → String → List String
  | [], x => [x]
  | y :: ys, x => if y.length ≤ x.length then y :: insertByLen ys x else x :: y :: ys

/-- The JavaScript stable `Array.prototype.sort` with comparator
`(a, b) => a.length - b.length` (`mod.ts` line 298): entries of equal length
keep their original relative order. -/
def sortByLen (l : List String) : List String :=
  l.foldl insertByLen []

/-- Prefixing of one flag name (`mod.ts` line 299): `--` for multi-character
names, `-` for single characters. -/
def dashify (f : String) : String :=
  (if f.length > 1 then "--" else "-") ++ f

/-- The ` <placeholder>` suffix (`mod.ts` line 300 and line 117): appended only
when the placeholder is truthy. -/
def argSuffixOf (argName : Option String) : String :=
  if jsTruthy argName then " <" ++ argName.getD "" ++ ">" else ""

/-- The flag-string of one flag (`mod.ts` lines 297-300 and 114-117): the name
and its aliases, sorted by length, dash-prefixed, comma-joined, plus the
placeholder suffix. -/
def flagStringOfParts (flag : String) (aliases : Option (List String))
    (argName : Option String) : String :=
  String.intercalate ", " ((sortByLen (flag :: aliases.getD [])).map dashify) ++
    argSuffixOf argName

/-- The description-string of one flag (`mod.ts` lines 293-295 and 110-112):
the description with a ` (default: ...)` suffix when a formatted default is
truthy, or `Default: ...` alone, or empty. -/
def descStringOf (desc fd : Option String) : String :=
  if jsTruthy desc then
    desc.getD "" ++ (if jsTruthy fd then " (default: " ++ fd.getD "" ++ ")" else "")
  else if jsTruthy fd then "Default: " ++ fd.getD "" else ""

/-- The per-flag display record (`mod.ts` lines 291-301 and 108-118). -/
structure FlagRec where
  descriptionString : String
  flagString : String
deriving DecidableEq, Repr

/-- Maximum flag-string length (`mod.ts` line 303 and line 120). -/
def maxFlagStringLength (recs : List FlagRec) : Nat :=
  recs.foldl (fun mx r => max mx r.flagString.length) 0

/-- A run of `n` spaces (`" ".repeat(n)`). -/
def repeatSpace (n : Nat) : String :=
  String.mk (List.replicate n ' ')

/-- Final assembly (`mod.ts` lines 305-309 and 122-126): the `Options:` header
then one aligned line per flag, joined by line breaks, with no trailing line
break. -/
def renderRecords (recs : List FlagRec) : String :=
  let maxLen := maxFlagStringLength recs
  "Options:\n" ++ String.intercalate "\n"
    (recs.map (fun r =>
      "  " ++ r.flagString ++ repeatSpace (maxLen - r.flagString.length) ++ "  " ++
        r.descriptionString))

/-- The display records of the later revision's `formatUsage`
(`mod.ts` lines 271-301). -/
def flagRecordsOf (o : ArgProcessingOptions) : List FlagRec :=
  let infos := convertToFlagInfos o
  let fd := flagDefaultStringsV2 infos
  infos.map (fun info =>
    { descriptionString := descStringOf info.description (getVal fd info.flag)
      flagString := flagStringOfParts info.flag info.aliases info.argumentName })

/-- Function `formatUsage`, later revision (`mod.ts` lines 268-310). -/
def formatUsage (options : ArgProcessingOptions) : String :=
  renderRecords (flagRecordsOf (addHelpFlagIfNeeded options))

/-- The display records of the earlier revision's `formatUsage`
(`mod.ts` lines 34-118). -/
def flagRecordsV1Of (o : ArgProcessingOptions) : List FlagRec :=
  let fd := flagDefaultStringsV1 o
  let fas := flagArgumentStringsV1 o
  (flagSetOf o).map (fun flag =>
    { descriptionString := descStringOf (getVal o.description flag) (getVal fd flag)
      flagString := flagStringOfParts flag (getVal (flagToAliasesOf o) flag) (getVal fas flag) })

/-- Function `formatUsage`, earlier revision (`mod.ts` lines 30-127). -/
def formatUsageOld (options : ArgProcessingOptions) : String :=
  renderRecords (flagRecordsV1Of (addHelpFlagIfNeeded options))

/-- Modelled from the spec: the preamble handling of the Usage Renderer.  The
spec's renderer contract is `render(preamble?, orderedFlagInfos)` with: if a
preamble string was supplied, prepend it verbatim followed by exactly one
blank line before the `Options:` header; if no preamble, omit entirely (no
leading blank line).  Neither `mod.ts` revision under `src/` contains this
preamble step, so it is modelled here from the spec's words on top of the
source-derived `formatUsage` block. -/
def formatUsageWithPreamble (options : ArgProcessingOptions) : String :=
  (match options.preamble with
   | some p => p ++ "\n\n"
   | none => "") ++ formatUsage options

/-- Modelled from the spec: the external tokenizer (`std/flags` `parse`) is
not part of the repository sources.  A flag-prefix token is one beginning with
the `-` character (spec glossary). -/
def isFlagToken (t : String) : Bool :=
  match t.data with
  | [] => false
  | c :: _ => c == '-'

/-- Modelled from the spec: the flag key carried by a flag-prefix token — the
token with its leading dashes removed, up to an `=` separator. -/
def keyOfToken (t : String) : String :=
  String.mk ((t.data.dropWhile (fun c => c == '-')).takeWhile (fun c => c != '='))

/-- Modelled from the spec: a key is declared when it is a canonical flag name
or appears in the alias map (spec glossary: an unknown flag is a flag-prefix
token with no corresponding canonical flag or alias in the active
configuration). -/
def declaredKey (o : ArgProcessingOptions) (k : String) : Bool :=
  (unionFlags o).contains k ||
    (flagToAliasesOf o).any (fun kv => kv.1 == k || kv.2.contains k)

/-- Modelled from the spec: alias resolution — an alias is reported under its
canonical flag name. -/
def resolveAliasKey (o : ArgProcessingOptions) (k : String) : String :=
  match (flagToAliasesOf o).find? (fun kv => kv.2.contains k) with
  | some kv => kv.1
  | none => k

/-- The tokens recorded by the `unknown` wrapper installed by `processFlags`
(`mod.ts` lines 324-325): the wrapper pushes every argument it is invoked
with, in order and with repetitions, onto an array.  Modelled from the spec:
the tokenizer invokes the callback once per flag-prefix token whose key is not
declared. -/
def unknownFlagsRec (args : List String) (o : ArgProcessingOptions) : List String :=
  args.filter (fun t => isFlagToken t && !declaredKey o (keyOfToken t))

/-- The parsed result (`Args`): flag values, plus the positional arguments
held under the reserved `_` key, with the `help` entry exposed directly. -/
structure ParsedArgs where
  help : Bool := false
  positional : List String := []
  values : StrMap JSVal := []
deriving DecidableEq, Repr

/-- Modelled from the spec: the external tokenizer.  Non-flag tokens become
positional arguments in order; declared flag-prefix tokens set their resolved
canonical key (value modelling is coarse: declared flags are set to `true`,
on top of the defaults); the result's `help` entry is true when some
flag-prefix token resolves to the help flag.  Tokenization details the spec
leaves to the collaborator (value consumption, negation, `=`-values) are not
modelled. -/
def parseModel (args : List String) (o : ArgProcessingOptions) : ParsedArgs :=
  { help := args.any (fun t => isFlagToken t && resolveAliasKey o (keyOfToken t) == "help")
    positional := args.filter (fun t => !isFlagToken t)
    values := args.foldl (fun m t =>
      if isFlagToken t && declaredKey o (keyOfToken t) then
        setKey m (resolveAliasKey o (keyOfToken t)) (.bool true)
      else m) o.default }

/-- Function `parseFlags` (`mod.ts` lines 316-318): delegation to the external
tokenizer with the augmented configuration. -/
def parseFlags (args : List String) (options : ArgProcessingOptions) : ParsedArgs :=
  parseModel args (addHelpFlagIfNeeded options)

/-- The observable outcome of `processFlags`: either process termination with
the text printed to the console (each `console.log(s)` contributes `s`
followed by a line break) and the exit status, or the parsed result returned
to the caller. -/
inductive ProcOutcome where
  | exit (stdout : String) (code : Int)
  | ret (parsed : ParsedArgs)
deriving DecidableEq, Repr

/-- Function `processFlags` (`mod.ts` lines 320-341): augment, install the
recording `unknown` wrapper, delegate to the tokenizer, then either report
unknown arguments and usage and terminate with status `-1`, or return the
parsed result. -/
def processFlags (args : List String) (options : ArgProcessingOptions) : ProcOutcome :=
  let o := addHelpFlagIfNeeded options
  let parsedArgs := parseFlags args o
  let unknownFlags := unknownFlagsRec args o
  if parsedArgs.help || !unknownFlags.isEmpty then
    .exit ((if !unknownFlags.isEmpty then
        "Unknown arguments: " ++ String.intercalate " " unknownFlags ++ "\n\n"
      else "") ++ formatUsage o ++ "\n") (-1)
  else
    .ret parsedArgs

/-- The wrapper installed as `o.unknown` (`mod.ts` line 325): records the
argument, then forwards to the caller's callback when present and otherwise
returns `undefined`. -/
def wrappedUnknown (cb : Option UnknownCb) : UnknownCb :=
  fun arg key value =>
    match cb with
    | some f => f arg key value
    | none => JSVal.undef

/-- The state of the caller's options object after a `processFlags` call,
under JavaScript reference semantics: `addHelpFlagIfNeeded` returns the
caller's own object when the configuration already carries a truthy help
description (`mod.ts` lines 176-177), and `processFlags` then assigns its
wrapper to `o.unknown` (`mod.ts` line 325) — through the shared reference in
that case, mutating the caller's object.  In the other case
`addHelpFlagIfNeeded` builds a fresh object and the caller's object is left
untouched. -/
def processFlagsFinalOptions (options : ArgProcessingOptions) : ArgProcessingOptions :=
  if jsTruthy (getVal options.description "help") then
    { options with unknown := some (wrappedUnknown options.unknown) }
  else options

/-- The round-trip configuration of the spec's testable properties:
`{description:{output:"Output directory"}, argument:{output:"dir"},
string:["output"], default:{output:"out"}}`. -/
def cfgRoundtrip : ArgProcessingOptions :=
  { description := [("output", "Output directory")]
    argument := [("output", "dir")]
    string := .listVal ["output"]
    default := [("output", .str "out")] }

/-- A configuration that already declares a truthy help description. -/
def cfgHelpDeclared : ArgProcessingOptions :=
  { description := [("help", "Custom help text")] }

/-- A configuration listing the same flag as both boolean and string. -/
def cfgBoolString : ArgProcessingOptions :=
  { boolean := .listVal ["x"], string := .listVal ["x"] }

/-- A boolean flag with an explicit argument-map placeholder. -/
def cfgBoolArg : ArgProcessingOptions :=
  { boolean := .listVal ["verbose"], argument := [("verbose", "level")] }

/-- A configuration with a single boolean flag and nothing else. -/
def cfgQuiet : ArgProcessingOptions :=
  { boolean := .listVal ["quiet"] }

/-- A configuration whose description map contains an entry for the help flag
whose value is the empty string (declared but falsy). -/
def cfgEmptyHelpDesc : ArgProcessingOptions :=
  { description := [("help", ""), ("output", "Output directory")] }

/-- A configuration registering `help` as an alias of another flag. -/
def cfgHelpAlias : ArgProcessingOptions :=
  { aliasOpt := [("verbose", .one "help")], boolean := .listVal ["verbose"] }

/-- A configuration whose default map carries the value `undefined`. -/
def cfgUndefDefault : ArgProcessingOptions :=
  { default := [("x", JSVal.undef)] }

/-- A well-formed configuration with a string flag carrying a default, used to
instantiate universal theorems. -/
def cfgAgree : ArgProcessingOptions :=
  { description := [("output", "Output directory")]
    string := .listVal ["output"]
    default := [("output", .str "out")] }

theorem getVal_nil {α : Type} (f : String) : getVal ([] : StrMap α) f = none := rfl

theorem getVal_setKey {α : Type} (m : StrMap α) (k : String) (v : α) (f : String) :
    getVal (setKey m k v) f = if f = k then some v else getVal m f := by
  induction m with
  | nil => simp [setKey, getVal, eq_comm]
  | cons kv m ih =>
    by_cases h1 : kv.1 = k
    · by_cases h2 : f = k
      · subst h2
        simp [setKey, getVal, h1]
      · have h2' : ¬k = f := fun hc => h2 hc.symm
        simp [setKey, getVal, h1, h2, h2']
    · by_cases h2 : kv.1 = f
      · have h3 : ¬f = k := fun hc => h1 (h2.trans hc)
        simp [setKey, getVal, h1, h2, h3]
      · simp [setKey, getVal, h1, h2, ih]

theorem getVal_eq_none_of_not_mem {α : Type} (m : StrMap α) (f : String)
    (h : f ∉ m.map Prod.fst) : getVal m f = none := by
  induction m with
  | nil => rfl
  | cons kv m ih =>
    simp only [List.map_cons, List.mem_cons] at h
    push_neg at h
    have h1 : ¬kv.1 = f := fun hc => h.1 hc.symm
    simp [getVal, h1, ih h.2]

theorem getVal_mem {α : Type} (m : StrMap α) (f : String) (v : α)
    (h : getVal m f = some v) : (f, v) ∈ m := by
  induction m with
  | nil => simp [getVal] at h
  | cons kv m ih =>
    by_cases h1 : kv.1 = f
    · simp only [getVal, if_pos h1, Option.some.injEq] at h
      subst h1 h
      exact List.mem_cons_self ..
    · simp only [getVal, if_neg h1] at h
      exact List.mem_cons_of_mem _ (ih h)

theorem getVal_foldl_upd {α : Type} (h : String → Option α) (l : List String) :
    ∀ (m0 : StrMap α) (f : String), l.Nodup →
      getVal (l.foldl (fun m x => updEntry x (h x) m) m0) f =
        if f ∈ l then (h f).or (getVal m0 f) else getVal m0 f := by
  induction l with
  | nil => intro m0 f _; simp
  | cons x l ih =>
    intro m0 f hnd
    rw [List.foldl_cons, ih _ f (List.Nodup.of_cons hnd)]
    by_cases hfx : f = x
    · subst hfx
      have hfl : f ∉ l := (List.nodup_cons.mp hnd).1
      rw [if_neg hfl, if_pos (List.mem_cons_self ..)]
      cases hh : h f with
      | some v => simp [updEntry, hh, getVal_setKey, Option.or]
      | none => simp [updEntry, hh, Option.or]
    · have hstep : getVal (updEntry x (h x) m0) f = getVal m0 f := by
        cases hh : h x with
        | some v => simp [updEntry, getVal_setKey, hfx]
        | none => rfl
      by_cases hfl : f ∈ l
      · rw [if_pos hfl, if_pos (List.mem_cons_of_mem _ hfl)]
        rw [hstep]
      · have hnc : f ∉ x :: l := by
          simp [List.mem_cons, hfx, hfl]
        rw [if_neg hfl, if_neg hnc]
        exact hstep

theorem getVal_foldl_pairs {α β : Type} (g : β → α) (l : StrMap β) :
    ∀ (m0 : StrMap α) (f : String), (l.map Prod.fst).Nodup →
      getVal (l.foldl (fun m kv => setKey m kv.1 (g kv.2)) m0) f =
        match getVal l f with
        | some v => some (g v)
        | none => getVal m0 f := by
  induction l with
  | nil => intro m0 f _; simp [getVal]
  | cons kv l ih =>
    intro m0 f hnd
    rw [List.map_cons] at hnd
    have hnd' : (l.map Prod.fst).Nodup := (List.nodup_cons.mp hnd).2
    have hkv : kv.1 ∉ l.map Prod.fst := (List.nodup_cons.mp hnd).1
    rw [List.foldl_cons, ih _ f hnd']
    by_cases h1 : kv.1 = f
    · subst h1
      rw [getVal_eq_none_of_not_mem l kv.1 hkv]
      simp [getVal, getVal_setKey]
    · have h1' : ¬f = kv.1 := fun hc => h1 hc.symm
      simp only [getVal, if_neg h1]
      cases hg : getVal l f with
      | some v => rfl
      | none =>
        show getVal (setKey m0 kv.1 (g kv.2)) f = getVal m0 f
        rw [getVal_setKey, if_neg h1']

theorem getVal_foldl_setConst {α : Type} (c : α) (names : List String) :
    ∀ (m0 : StrMap α) (f : String),
      getVal (names.foldl (fun m n => setKey m n c) m0) f =
        if f ∈ names then some c else getVal m0 f := by
  induction names with
  | nil => intro m0 f; simp
  | cons n ns ih =>
    intro m0 f
    rw [List.foldl_cons, ih]
    by_cases hfn : f ∈ ns
    · simp [hfn]
    · by_cases hf : f = n <;> simp [hfn, hf, getVal_setKey]

theorem addFlag_nodup (fs : List String) (f : String) (h : fs.Nodup) :
    (addFlag fs f).Nodup := by
  unfold addFlag
  by_cases hm : f ∈ fs
  · rwa [if_pos hm]
  · rw [if_neg hm]
    simp [List.nodup_append, h, List.disjoint_singleton, hm]

theorem foldl_addFlag_nodup (l : List String) :
    ∀ fs : List String, fs.Nodup → (l.foldl addFlag fs).Nodup := by
  induction l with
  | nil => intro fs h; exact h
  | cons x l ih => intro fs h; exact ih _ (addFlag_nodup fs x h)

theorem unionFlags_nodup (o : ArgProcessingOptions) : (unionFlags o).Nodup := by
  unfold unionFlags
  exact foldl_addFlag_nodup _ _ (foldl_addFlag_nodup _ _ (foldl_addFlag_nodup _ _
    (foldl_addFlag_nodup _ _ (foldl_addFlag_nodup _ _ List.nodup_nil))))

theorem filters_foldl_sublist (as : List String) :
    ∀ fs : List String,
      (as.foldl (fun fs a => fs.filter (fun f => f != a)) fs).Sublist fs := by
  induction as with
  | nil => intro fs; exact List.Sublist.refl fs
  | cons a as ih =>
    intro fs
    exact (ih (fs.filter (fun f => f != a))).trans (List.filter_sublist fs)

theorem removeAliases_sublist (fta : StrMap (List String)) :
    ∀ fs : List String, (removeAliases fs fta).Sublist fs := by
  unfold removeAliases
  induction fta with
  | nil => intro fs; exact List.Sublist.refl fs
  | cons kv fta ih =>
    intro fs
    exact (ih _).trans (filters_foldl_sublist kv.2 fs)

theorem flagSetOf_nodup (o : ArgProcessingOptions) : (flagSetOf o).Nodup := by
  unfold flagSetOf
  refine List.Nodup.sublist (removeAliases_sublist _ _) ?_
  have h1 : ((unionFlags o).filter (fun f => f != "help")).Nodup :=
    List.Nodup.filter _ (unionFlags_nodup o)
  have h2 : "help" ∉ (unionFlags o).filter (fun f => f != "help") := by
    intro hm
    have := List.of_mem_filter hm
    simp at this
  simp [List.nodup_append, h1, List.disjoint_singleton, h2]

/-- C1: for the configuration `{description:{output:"Output directory"},
argument:{output:"dir"}, string:["output"], default:{output:"out"}}`,
`formatUsage` returns exactly the two-line options block with no trailing
line break. -/
theorem formatUsage_roundtrip :
    formatUsage cfgRoundtrip =
      "Options:\n  --output <dir>  Output directory (default: \"out\")\n  -h, -?, --help  Display usage information" := by
  decide

theorem string_empty_append (s : String) : "" ++ s = s := by
  cases s with
  | mk d => rfl

/-- Supporting fact: both source revisions of `formatUsage` never read the
`preamble` property — the rendered block is unchanged by it and always begins
directly with the `Options:` header.  This is why the preamble step of the
Usage Renderer has to be modelled from the spec. -/
theorem formatUsage_ignores_preamble (cfg : ArgProcessingOptions) (p : Option String) :
    formatUsage { cfg with preamble := p } = formatUsage cfg ∧
      ∃ body, formatUsage cfg = "Options:\n" ++ body := by
  constructor
  · unfold formatUsage addHelpFlagIfNeeded
    by_cases h : jsTruthy (getVal cfg.description "help") = true
    · simp only [h]
      rfl
    · simp only [Bool.not_eq_true] at h
      simp only [h]
      rfl
  · exact ⟨_, rfl⟩

/-- C2: for every configuration that supplies a preamble string, the rendered
usage text equals the preamble verbatim, followed by exactly one blank line,
followed by the `Options:` block (the same block the source `formatUsage`
renders); for every configuration without a preamble, the output is exactly
that block, which begins directly with the `Options:` header with no leading
blank line. -/
theorem formatUsage_preamble_rendering (cfg : ArgProcessingOptions) (p : String) :
    formatUsageWithPreamble { cfg with preamble := some p } =
        p ++ "\n\n" ++ formatUsage cfg ∧
      formatUsageWithPreamble { cfg with preamble := none } = formatUsage cfg ∧
      ∃ body, formatUsage cfg = "Options:\n" ++ body := by
  refine ⟨?_, ?_, ⟨_, rfl⟩⟩
  · show (p ++ "\n\n") ++ formatUsage { cfg with preamble := some p } = _
    rw [(formatUsage_ignores_preamble cfg (some p)).1]
  · show "" ++ formatUsage { cfg with preamble := none } = _
    rw [string_empty_append, (formatUsage_ignores_preamble cfg none).1]

/-- C3 (counterexample): for a configuration that already declares a truthy
help description, `addHelpFlagIfNeeded` returns the caller's own object, and
`processFlags` then overwrites its `unknown` property with the recording
wrapper — so the caller's configuration object is not left unchanged. -/
theorem processFlags_mutation_cex :
    (processFlagsFinalOptions cfgHelpDeclared).unknown ≠ cfgHelpDeclared.unknown := by
  have h : jsTruthy (getVal [("help", "Custom help text")] "help") = true := by decide
  simp [processFlagsFinalOptions, cfgHelpDeclared, h]

/-- C3 (amended): `formatUsage` and `parseFlags` never mutate the caller's
configuration, and `processFlags` leaves it unchanged whenever it does not
already declare a truthy help description; when it does,
`addHelpFlagIfNeeded` returns the caller's own object and `processFlags`
overwrites its unknown-callback field through that shared reference. -/
theorem processFlags_no_mutation_without_help_desc (cfg : ArgProcessingOptions)
    (h : jsTruthy (getVal cfg.description "help") = false) :
    processFlagsFinalOptions cfg = cfg := by
  unfold processFlagsFinalOptions
  simp [h]

theorem processFlags_no_mutation_witness :
    jsTruthy (getVal noOptions.description "help") = false ∧
      processFlagsFinalOptions noOptions = noOptions :=
  ⟨by decide, processFlags_no_mutation_without_help_desc noOptions (by decide)⟩

theorem addHelp_of_truthy (o : ArgProcessingOptions)
    (h : jsTruthy (getVal o.description "help") = true) :
    addHelpFlagIfNeeded o = o := by
  unfold addHelpFlagIfNeeded
  rw [if_pos h]

theorem addHelp_alias_help (o : ArgProcessingOptions)
    (h : jsTruthy (getVal o.description "help") = false) :
    getVal (addHelpFlagIfNeeded o).aliasOpt "help" = some (.many ["h", "?"]) := by
  unfold addHelpFlagIfNeeded
  rw [if_neg (by simp [h])]
  simp [getVal_setKey]

theorem addHelp_description_help (o : ArgProcessingOptions)
    (h : jsTruthy (getVal o.description "help") = false) :
    getVal (addHelpFlagIfNeeded o).description "help" = some "Display usage information" := by
  unfold addHelpFlagIfNeeded
  rw [if_neg (by simp [h])]
  simp [getVal_setKey]

/-- C7 (counterexample): a configuration whose description map declares a help
entry with the empty string as its value is not returned unchanged — the
truthiness test fails, so the help description is overwritten by the injected
one. -/
theorem addHelp_declared_empty_cex :
    (addHelpFlagIfNeeded cfgEmptyHelpDesc).description ≠ cfgEmptyHelpDesc.description ∧
      (getVal cfgEmptyHelpDesc.description "help").isSome = true := by
  decide

/-- C7 (amended): for every configuration whose help description is absent or
falsy (the empty string), normalization returns a copy with the help flag
aliased to exactly `["h", "?"]` and description "Display usage information";
for every configuration declaring a truthy (non-empty) help description,
normalization returns it unchanged; and normalization is idempotent. -/
theorem addHelp_normalization (cfg : ArgProcessingOptions) :
    (jsTruthy (getVal cfg.description "help") = false →
      getVal (addHelpFlagIfNeeded cfg).aliasOpt "help" = some (.many ["h", "?"]) ∧
        getVal (addHelpFlagIfNeeded cfg).description "help" =
          some "Display usage information") ∧
      (jsTruthy (getVal cfg.description "help") = true → addHelpFlagIfNeeded cfg = cfg) ∧
      addHelpFlagIfNeeded (addHelpFlagIfNeeded cfg) = addHelpFlagIfNeeded cfg := by
  refine ⟨fun h => ⟨addHelp_alias_help cfg h, addHelp_description_help cfg h⟩,
    fun h => addHelp_of_truthy cfg h, ?_⟩
  by_cases h : jsTruthy (getVal cfg.description "help") = true
  · rw [addHelp_of_truthy cfg h, addHelp_of_truthy cfg h]
  · have h' : jsTruthy (getVal cfg.description "help") = false := by
      simpa using h
    refine addHelp_of_truthy _ ?_
    rw [addHelp_description_help cfg h']
    decide

theorem addHelp_normalization_witness :
    (getVal (addHelpFlagIfNeeded noOptions).aliasOpt "help" = some (.many ["h", "?"]) ∧
        getVal (addHelpFlagIfNeeded noOptions).description "help" =
          some "Display usage information") ∧
      addHelpFlagIfNeeded (addHelpFlagIfNeeded noOptions) = addHelpFlagIfNeeded noOptions :=
  ⟨(addHelp_normalization noOptions).1 (by decide), (addHelp_normalization noOptions).2.2⟩

theorem string_append_empty (s : String) : s ++ "" = s := by
  cases s with
  | mk d =>
    show String.mk (d ++ []) = String.mk d
    rw [List.append_nil]

/-- C4 (counterexample): for a flag listed as both boolean and string, the
inferred type is `"string"`, not `"boolean"` — membership in the boolean list
does not win. -/
theorem flag_type_inference_cex :
    "x" ∈ booleanFlagsOf (addHelpFlagIfNeeded cfgBoolString) ∧
      getVal (flagArgumentTypesOf (addHelpFlagIfNeeded cfgBoolString)) "x" ≠ some "boolean" ∧
      getVal (flagArgumentTypesOf (addHelpFlagIfNeeded cfgBoolString)) "x" = some "string" ∧
      (convertToFlagInfos (addHelpFlagIfNeeded cfgBoolString)).map
          (fun info => (info.flag, info.type)) =
        [("x", some "string"), ("help", none)] := by
  decide

/-- C4 (amended): the inferred type follows this precedence, high to low:
membership in the string list yields `"string"`; otherwise membership in the
boolean list yields `"boolean"`; otherwise the runtime type of the default
value if one exists; otherwise no type.  (The string stage is written last and
overwrites the boolean stage, so for a flag in both lists the string list
wins.) -/
theorem flag_type_inference (o : ArgProcessingOptions) (f : String)
    (hnd : (o.default.map Prod.fst).Nodup) :
    getVal (flagArgumentTypesOf o) f =
      if f ∈ stringFlagsOf o then some "string"
      else if f ∈ booleanFlagsOf o then some "boolean"
      else (getVal o.default f).map JSVal.typeof := by
  unfold flagArgumentTypesOf
  rw [getVal_foldl_setConst, getVal_foldl_setConst,
    getVal_foldl_pairs JSVal.typeof o.default [] f hnd]
  by_cases h1 : f ∈ stringFlagsOf o
  · simp [h1]
  · by_cases h2 : f ∈ booleanFlagsOf o
    · simp [h1, h2]
    · cases hg : getVal o.default f <;> simp [h1, h2, hg, getVal_nil]

theorem flag_type_inference_witness :
    (cfgBoolString.default.map Prod.fst).Nodup ∧
      getVal (flagArgumentTypesOf cfgBoolString) "x" =
        (if "x" ∈ stringFlagsOf cfgBoolString then some "string"
         else if "x" ∈ booleanFlagsOf cfgBoolString then some "boolean"
         else (getVal cfgBoolString.default "x").map JSVal.typeof) :=
  ⟨by decide, flag_type_inference cfgBoolString "x" (by decide)⟩

/-- C5 (counterexample): for a boolean-list flag with an explicit placeholder
in the argument map, the rendered flag-string does carry the placeholder — the
explicit argument-map entry wins over the boolean type. -/
theorem boolean_flag_placeholder_cex :
    "verbose" ∈ booleanFlagsOf cfgBoolArg ∧
      (flagRecordsOf (addHelpFlagIfNeeded cfgBoolArg)).map FlagRec.flagString =
        ["--verbose <level>", "-h, -?, --help"] ∧
      "--verbose <level>" = "--verbose" ++ " <level>" := by
  decide

/-- C5 (amended): for every flag in the boolean list that has no entry in the
argument map and is not also in the string list, no argument placeholder is
derived and the rendered flag-string is the dash-prefixed, comma-joined names
alone, with no placeholder suffix.  (An explicit argument-map placeholder is
used verbatim even for boolean flags, and a flag also in the string list is
typed `"string"` and gets the `str` placeholder.) -/
theorem boolean_flag_no_placeholder (o : ArgProcessingOptions) (f : String)
    (h1 : f ∈ booleanFlagsOf o) (h2 : getVal o.argument f = none)
    (h3 : f ∉ stringFlagsOf o) :
    (mkFlagInfo o f).argumentName = none ∧
      flagStringOfParts f (mkFlagInfo o f).aliases (mkFlagInfo o f).argumentName =
        String.intercalate ", "
          ((sortByLen (f :: ((mkFlagInfo o f).aliases.getD []))).map dashify) := by
  have htype : getVal (flagArgumentTypesOf o) f = some "boolean" := by
    unfold flagArgumentTypesOf
    rw [getVal_foldl_setConst, getVal_foldl_setConst, if_neg h3, if_pos h1]
  have hraw : rawArgumentName o f = none := by
    unfold rawArgumentName
    rw [h2, htype]
    decide
  have hname : getVal (flagArgumentNamesOf o) f = none := by
    unfold flagArgumentNamesOf
    refine Eq.trans (getVal_foldl_upd (fun flag => truthyOpt (rawArgumentName o flag))
      (flagSetOf o) [] f (flagSetOf_nodup o)) ?_
    by_cases hm : f ∈ flagSetOf o <;> simp [hm, hraw, truthyOpt, getVal_nil, Option.or]
  have hinfo : (mkFlagInfo o f).argumentName = none := hname
  refine ⟨hinfo, ?_⟩
  unfold flagStringOfParts
  rw [hinfo]
  show _ ++ argSuffixOf none = _
  rw [show argSuffixOf none = "" from rfl, string_append_empty]

theorem boolean_flag_no_placeholder_witness :
    "quiet" ∈ booleanFlagsOf cfgQuiet ∧ getVal cfgQuiet.argument "quiet" = none ∧
      "quiet" ∉ stringFlagsOf cfgQuiet ∧
      (mkFlagInfo cfgQuiet "quiet").argumentName = none :=
  ⟨by decide, by decide, by decide,
    (boolean_flag_no_placeholder cfgQuiet "quiet" (by decide) (by decide) (by decide)).1⟩

/-- C6 (counterexample): when the same undeclared flag token occurs twice, the
reported text joins the recorded tokens with repetitions — the wrapper
accumulates an array, not a set — so the output is not the space-joined
unique tokens. -/
theorem processFlags_duplicate_unknown_cex :
    processFlags ["--bogus", "--bogus"] noOptions =
      .exit "Unknown arguments: --bogus --bogus\n\nOptions:\n  -h, -?, --help  Display usage information\n" (-1) ∧
      processFlags ["--bogus", "--bogus"] noOptions ≠
        .exit "Unknown arguments: --bogus\n\nOptions:\n  -h, -?, --help  Display usage information\n" (-1) := by
  decide

/-- C6 (amended): whenever the recorded unknown-flag list is non-empty,
`processFlags` reports `Unknown arguments: ` followed by the space-joined
recorded tokens in occurrence order (with repetitions, not deduplicated),
then a blank line, then the rendered usage text, and terminates the process
with failure status `-1`; this path never returns a parsed result. -/
theorem processFlags_unknown_exit (args : List String) (cfg : ArgProcessingOptions)
    (h : unknownFlagsRec args (addHelpFlagIfNeeded cfg) ≠ []) :
    processFlags args cfg =
      .exit ("Unknown arguments: " ++
          String.intercalate " " (unknownFlagsRec args (addHelpFlagIfNeeded cfg)) ++ "\n\n" ++
        formatUsage (addHelpFlagIfNeeded cfg) ++ "\n") (-1) := by
  have hne : (unknownFlagsRec args (addHelpFlagIfNeeded cfg)).isEmpty = false := by
    cases hu : unknownFlagsRec args (addHelpFlagIfNeeded cfg) with
    | nil => exact absurd hu h
    | cons a l => rfl
  unfold processFlags
  simp only [hne, Bool.not_false, Bool.or_true, if_true]

theorem processFlags_unknown_exit_witness :
    unknownFlagsRec ["--zzz"] (addHelpFlagIfNeeded noOptions) ≠ [] ∧
      processFlags ["--zzz"] noOptions =
        .exit ("Unknown arguments: " ++
            String.intercalate " " (unknownFlagsRec ["--zzz"] (addHelpFlagIfNeeded noOptions)) ++
            "\n\n" ++ formatUsage (addHelpFlagIfNeeded noOptions) ++ "\n") (-1) :=
  ⟨by decide, processFlags_unknown_exit ["--zzz"] noOptions (by decide)⟩

/-- C9: with argument tokens `["foo"]` and the empty configuration,
`processFlags` takes neither termination path and returns a parsed result
whose positional sequence is `["foo"]`; and in general only flag-prefix
tokens are ever recorded as unknown flags. -/
theorem processFlags_bare_positional :
    processFlags ["foo"] noOptions =
        .ret { help := false, positional := ["foo"], values := [] } ∧
      ∀ (args : List String) (o : ArgProcessingOptions) (t : String),
        t ∈ unknownFlagsRec args o → isFlagToken t = true := by
  constructor
  · decide
  · intro args o t ht
    unfold unknownFlagsRec at ht
    have hp := List.of_mem_filter ht
    simp only [Bool.and_eq_true] at hp
    exact hp.1

theorem processFlags_bare_positional_witness :
    processFlags ["foo"] noOptions =
        .ret { help := false, positional := ["foo"], values := [] } ∧
      isFlagToken "--zz" = true :=
  ⟨processFlags_bare_positional.1,
    processFlags_bare_positional.2 ["--zz"] noOptions "--zz" (by decide)⟩

theorem filters_foldl_append_help (as : List String) (hh : "help" ∉ as) :
    ∀ l : List String,
      as.foldl (fun fs a => fs.filter (fun f => f != a)) (l ++ ["help"]) =
        (as.foldl (fun fs a => fs.filter (fun f => f != a)) l) ++ ["help"] := by
  induction as with
  | nil => intro l; rfl
  | cons a as ih =>
    intro l
    simp only [List.mem_cons] at hh
    push_neg at hh
    rw [List.foldl_cons, List.foldl_cons, List.filter_append]
    have hstep : List.filter (fun f => f != a) ["help"] = ["help"] := by
      have : ("help" != a) = true := bne_iff_ne.mpr hh.1
      simp [List.filter, this]
    rw [hstep, ih hh.2]

theorem removeAliases_append_help :
    ∀ fta : StrMap (List String), (∀ kv ∈ fta, "help" ∉ kv.2) →
      ∀ l : List String,
        removeAliases (l ++ ["help"]) fta = removeAliases l fta ++ ["help"] := by
  intro fta
  unfold removeAliases
  induction fta with
  | nil => intro _ l; rfl
  | cons kv fta ih =>
    intro hfta l
    rw [List.foldl_cons, List.foldl_cons,
      filters_foldl_append_help kv.2 (hfta kv (List.mem_cons_self ..)) l]
    exact ih (fun kv' hm => hfta kv' (List.mem_cons_of_mem _ hm)) _

theorem flagSetOf_help_last (o : ArgProcessingOptions)
    (h : ∀ kv ∈ flagToAliasesOf o, "help" ∉ kv.2) :
    flagSetOf o =
        removeAliases ((unionFlags o).filter (fun f => f != "help")) (flagToAliasesOf o) ++
          ["help"] ∧
      "help" ∉
        removeAliases ((unionFlags o).filter (fun f => f != "help")) (flagToAliasesOf o) := by
  constructor
  · unfold flagSetOf
    exact removeAliases_append_help (flagToAliasesOf o) h _
  · intro hm
    have hm2 := (removeAliases_sublist (flagToAliasesOf o) _).mem hm
    have := List.of_mem_filter hm2
    simp at this

/-- C8 (counterexample): when `help` is registered in the alias map as an
alias of another flag, alias removal deletes the help flag from the canonical
set and no FlagInfo for the help flag exists at all. -/
theorem help_record_alias_cex :
    (convertToFlagInfos (addHelpFlagIfNeeded cfgHelpAlias)).map FlagInfo.flag = ["verbose"] ∧
      ((convertToFlagInfos (addHelpFlagIfNeeded cfgHelpAlias)).map FlagInfo.flag).count "help" =
        0 := by
  decide

/-- C8 (amended): for every configuration for which `help` is not registered
as an alias of another flag, the derived FlagInfo sequence contains exactly
one record for the help flag, that record is last in iteration order, and the
last rendered flag-string of the options block is the help flag's one.  (When
`help` is an alias of another flag, alias exclusion removes the help record
entirely.) -/
theorem help_record_last (cfg : ArgProcessingOptions)
    (h : ∀ kv ∈ flagToAliasesOf (addHelpFlagIfNeeded cfg), "help" ∉ kv.2) :
    ((convertToFlagInfos (addHelpFlagIfNeeded cfg)).map FlagInfo.flag).count "help" = 1 ∧
      ((convertToFlagInfos (addHelpFlagIfNeeded cfg)).map FlagInfo.flag).getLast? =
        some "help" ∧
      ((flagRecordsOf (addHelpFlagIfNeeded cfg)).map FlagRec.flagString).getLast? =
        some (flagStringOfParts "help"
          (getVal (flagToAliasesOf (addHelpFlagIfNeeded cfg)) "help")
          (getVal (flagArgumentNamesOf (addHelpFlagIfNeeded cfg)) "help")) := by
  set o := addHelpFlagIfNeeded cfg with ho
  obtain ⟨hset, hnm⟩ := flagSetOf_help_last o h
  have hmapflag : (convertToFlagInfos o).map FlagInfo.flag = flagSetOf o := by
    unfold convertToFlagInfos
    rw [List.map_map]
    have : FlagInfo.flag ∘ mkFlagInfo o = id := funext fun f => rfl
    rw [this, List.map_id]
  refine ⟨?_, ?_, ?_⟩
  · rw [hmapflag, hset, List.count_append]
    rw [List.count_eq_zero.mpr hnm]
    rfl
  · rw [hmapflag, hset]
    exact List.getLast?_concat ..
  · have hrec : (flagRecordsOf o).map FlagRec.flagString =
        (flagSetOf o).map (fun f =>
          flagStringOfParts f (getVal (flagToAliasesOf o) f)
            (getVal (flagArgumentNamesOf o) f)) := by
      simp only [flagRecordsOf, convertToFlagInfos, List.map_map]
      rfl
    rw [hrec, hset, List.map_append]
    simp only [List.map_cons, List.map_nil]
    rw [List.getLast?_concat]

theorem list_map_congr_mem {α β : Type} (l : List α) (f g : α → β)
    (h : ∀ a ∈ l, f a = g a) : l.map f = l.map g := by
  induction l with
  | nil => rfl
  | cons x l ih =>
    rw [List.map_cons, List.map_cons, h x (List.mem_cons_self ..),
      ih (fun a ha => h a (List.mem_cons_of_mem _ ha))]

theorem addHelp_default (cfg : ArgProcessingOptions) :
    (addHelpFlagIfNeeded cfg).default = cfg.default := by
  unfold addHelpFlagIfNeeded
  split <;> rfl

theorem formatDefaultV2_some (v : JSVal) (hv : v ≠ JSVal.undef) :
    formatDefaultV2 (some v) = some (formatDefaultV1 v) := by
  cases v with
  | undef => exact absurd rfl hv
  | str s => rfl
  | num n => rfl
  | bool b => rfl
  | other t => rfl

theorem argSuffixOf_truthyOpt (x : Option String) :
    argSuffixOf (truthyOpt x) = argSuffixOf x := by
  cases x with
  | none => rfl
  | some s =>
    by_cases h : s = ""
    · subst h; rfl
    · have hb : (s != "") = true := bne_iff_ne.mpr h
      simp [truthyOpt, hb]

theorem descStringOf_truthyOpt (d x : Option String) :
    descStringOf d (truthyOpt x) = descStringOf d x := by
  cases x with
  | none => rfl
  | some s =>
    by_cases h : s = ""
    · subst h; rfl
    · have hb : (s != "") = true := bne_iff_ne.mpr h
      simp [truthyOpt, hb]

theorem flagRecords_versions_agree (o : ArgProcessingOptions)
    (hnd : (o.default.map Prod.fst).Nodup)
    (hud : ∀ kv ∈ o.default, kv.2 ≠ JSVal.undef) :
    flagRecordsV1Of o = flagRecordsOf o := by
  have hV2 : flagRecordsOf o = (flagSetOf o).map (fun f =>
      ({ descriptionString := descStringOf (getVal o.description f)
            (getVal (flagDefaultStringsV2 (convertToFlagInfos o)) f),
         flagString := flagStringOfParts f (getVal (flagToAliasesOf o) f)
            (getVal (flagArgumentNamesOf o) f) } : FlagRec)) := by
    simp only [flagRecordsOf, convertToFlagInfos, List.map_map]
    rfl
  have hV1 : flagRecordsV1Of o = (flagSetOf o).map (fun f =>
      ({ descriptionString := descStringOf (getVal o.description f)
            (getVal (flagDefaultStringsV1 o) f),
         flagString := flagStringOfParts f (getVal (flagToAliasesOf o) f)
            (getVal (flagArgumentStringsV1 o) f) } : FlagRec)) := rfl
  rw [hV1, hV2]
  apply list_map_congr_mem
  intro f hm
  have hfd1 : getVal (flagDefaultStringsV1 o) f =
      (match getVal o.default f with
       | some v => some (formatDefaultV1 v)
       | none => none) := by
    unfold flagDefaultStringsV1
    refine Eq.trans (getVal_foldl_pairs formatDefaultV1 o.default [] f hnd) ?_
    cases getVal o.default f <;> rfl
  have hfd2 : getVal (flagDefaultStringsV2 (convertToFlagInfos o)) f =
      truthyOpt (formatDefaultV2 (getVal o.default f)) := by
    unfold flagDefaultStringsV2 convertToFlagInfos
    rw [List.foldl_map]
    refine Eq.trans (getVal_foldl_upd
      (fun g => truthyOpt (formatDefaultV2 (getVal o.default g)))
      (flagSetOf o) [] f (flagSetOf_nodup o)) ?_
    rw [if_pos hm]
    show (truthyOpt (formatDefaultV2 (getVal o.default f))).or
        (getVal ([] : StrMap String) f) =
      truthyOpt (formatDefaultV2 (getVal o.default f))
    cases truthyOpt (formatDefaultV2 (getVal o.default f)) <;> rfl
  have hfas : getVal (flagArgumentStringsV1 o) f = rawArgumentName o f := by
    unfold flagArgumentStringsV1
    refine Eq.trans (getVal_foldl_upd (rawArgumentName o)
      (flagSetOf o) [] f (flagSetOf_nodup o)) ?_
    rw [if_pos hm]
    show (rawArgumentName o f).or (getVal ([] : StrMap String) f) = rawArgumentName o f
    cases rawArgumentName o f <;> rfl
  have hnames : getVal (flagArgumentNamesOf o) f = truthyOpt (rawArgumentName o f) := by
    unfold flagArgumentNamesOf
    refine Eq.trans (getVal_foldl_upd (fun g => truthyOpt (rawArgumentName o g))
      (flagSetOf o) [] f (flagSetOf_nodup o)) ?_
    rw [if_pos hm]
    show (truthyOpt (rawArgumentName o f)).or (getVal ([] : StrMap String) f) =
      truthyOpt (rawArgumentName o f)
    cases truthyOpt (rawArgumentName o f) <;> rfl
  have hdesc : descStringOf (getVal o.description f) (getVal (flagDefaultStringsV1 o) f) =
      descStringOf (getVal o.description f)
        (getVal (flagDefaultStringsV2 (convertToFlagInfos o)) f) := by
    rw [hfd1, hfd2]
    cases hg : getVal o.default f with
    | none => rfl
    | some v =>
      have hv : v ≠ JSVal.undef := hud (f, v) (getVal_mem o.default f v hg)
      rw [formatDefaultV2_some v hv]
      exact (descStringOf_truthyOpt _ _).symm
  have harg : flagStringOfParts f (getVal (flagToAliasesOf o) f)
        (getVal (flagArgumentStringsV1 o) f) =
      flagStringOfParts f (getVal (flagToAliasesOf o) f)
        (getVal (flagArgumentNamesOf o) f) := by
    unfold flagStringOfParts
    rw [hfas, hnames, argSuffixOf_truthyOpt]
  rw [hdesc, harg]

/-- C10 (counterexample): on a configuration whose default map carries the
value `undefined`, the two `formatUsage` revisions disagree — the earlier one
renders `Default: undefined`, the later one renders no default text. -/
theorem formatUsage_versions_cex :
    formatUsageOld cfgUndefDefault ≠ formatUsage cfgUndefDefault := by
  decide

/-- C10 (amended): the two `formatUsage` implementations return identical
strings for every configuration whose default map has distinct keys and
carries no `undefined` value — in particular they agree on configurations
where a flag's explicit argument-map placeholder is the empty string; they
differ exactly when a default value is `undefined`. -/
theorem formatUsage_versions_agree (cfg : ArgProcessingOptions)
    (hnd : (cfg.default.map Prod.fst).Nodup)
    (hud : ∀ kv ∈ cfg.default, kv.2 ≠ JSVal.undef) :
    formatUsageOld cfg = formatUsage cfg := by
  unfold formatUsageOld formatUsage
  refine congrArg renderRecords (flagRecords_versions_agree _ ?_ ?_)
  · rw [addHelp_default cfg]; exact hnd
  · rw [addHelp_default cfg]; exact hud

theorem formatUsage_versions_agree_witness :
    (cfgAgree.default.map Prod.fst).Nodup ∧
      (∀ kv ∈ cfgAgree.default, kv.2 ≠ JSVal.undef) ∧
      formatUsageOld cfgAgree = formatUsage cfgAgree :=
  ⟨by decide, by decide, formatUsage_versions_agree cfgAgree (by decide) (by decide)⟩

theorem help_record_last_witness :
    (∀ kv ∈ flagToAliasesOf (addHelpFlagIfNeeded noOptions), "help" ∉ kv.2) ∧
      ((convertToFlagInfos (addHelpFlagIfNeeded noOptions)).map FlagInfo.flag).count "help" =
        1 ∧
      ((convertToFlagInfos (addHelpFlagIfNeeded noOptions)).map FlagInfo.flag).getLast? =
        some "help" :=
  ⟨by decide, (help_record_last noOptions (by decide)).1,
    (help_record_last noOptions (by decide)).2.1⟩
